import Mathlib

/-!
Verification of the hdgraph package: a directed graph backed by a pair of
mirrored adjacency maps (`out`, `in`), with strongly connected components
computed by a two-pass DFS (Kosaraju) in `StrongComponents`.

Modelling conventions (shallow embedding of hdgraph.go):
* Go's `map[int]map[int]struct{}` is modelled as an association list
  `List (Nat × List Nat)`; a key occurs at most once in lists built through
  the API (Go maps cannot hold duplicate keys), lookups read the first match.
  Go map iteration order is unspecified; the model iterates in list
  (insertion) order.  Node identities are modelled as `Nat`; the claims under
  study only involve non-negative identities (a negative identity makes the
  Go code panic on the `flip` slice exactly like an identity that is too
  large, which the model does exhibit).
* Go's `d.flip[node]` panics when `node ≥ len(flip)`; every function that can
  reach such an access returns `Option`, with `none` standing for the panic.
* The recursive DFS is written with an explicit fuel parameter so that it is
  structurally recursive and computable by `decide`.  One invocation of
  `dfs1`/`dfs2` performs at most one call per processed neighbour plus one
  call per visited node; every visit flips one marker entry, so the number of
  nested calls of a single root invocation is bounded by
  `flip.length + total adjacency size + 1`.  `strongComponents` passes twice
  that (plus slack), hence the fuel can never be exhausted and `none` is
  reachable only through an out-of-range `flip` access, i.e. a Go panic.
-/

namespace HdGraph

/-- An association list modelling Go's `map[int]map[int]struct{}`. -/
abbrev AdjList := List (Nat × List Nat)

/-- `m[k]` for a Go adjacency map: the neighbour set of `k` (first matching
entry), the empty set when `k` is absent (Go returns the nil map, which
ranges over nothing). -/
def lookupAdj : AdjList → Nat → List Nat
  | [], _ => []
  | p :: t, k => if p.1 = k then p.2 else lookupAdj t k

/-- `_, exists := m[k]` for a Go map. -/
def hasKey : AdjList → Nat → Bool
  | [], _ => false
  | p :: t, k => if p.1 = k then true else hasKey t k

/-- Update the neighbour set stored under key `k` (no-op when `k` is
absent, like writing through Go's `delete` on a nil inner map). -/
def updateEntry : AdjList → Nat → (List Nat → List Nat) → AdjList
  | [], _, _ => []
  | p :: t, k, f => (p.1, if p.1 = k then f p.2 else p.2) :: updateEntry t k f

/-- `m[k] = v` for a Go map: overwrite the entry if present, insert it
otherwise. -/
def setEntry (m : AdjList) (k : Nat) (v : List Nat) : AdjList :=
  if hasKey m k then updateEntry m k (fun _ => v) else m ++ [(k, v)]

/-- `delete(m, k)` for a Go map. -/
def eraseKey : AdjList → Nat → AdjList
  | [], _ => []
  | p :: t, k => if p.1 = k then eraseKey t k else p :: eraseKey t k

/-- `s[x] = struct{}{}` for a Go set: insert if absent. -/
def insertNb (l : List Nat) (x : Nat) : List Nat :=
  if x ∈ l then l else l ++ [x]

/-- The `Graph` struct of hdgraph.go: the forward (`out`) and reverse
(`inn`, Go field `in`) adjacency maps. -/
structure Graph where
  out : AdjList
  inn : AdjList
deriving Repr, DecidableEq

/-- `New`: a graph with no nodes. -/
def Graph.new : Graph := ⟨[], []⟩

/-- `Add`: insert a node with empty neighbour sets if it is not yet a key of
`out`.  Note the Go code assigns `g.in[node] = make(...)` unconditionally in
that branch, overwriting any stale `in` entry. -/
def Graph.add (g : Graph) (n : Nat) : Graph :=
  if hasKey g.out n then g
  else ⟨g.out ++ [(n, [])], setEntry g.inn n []⟩

/-- `Remove`: for every successor `dst` of `n`, delete `n` from `in[dst]`;
then delete key `n` from `out`.  (The Go code does not delete `g.in[node]`.) -/
def Graph.remove (g : Graph) (n : Nat) : Graph :=
  let outN := lookupAdj g.out n
  ⟨eraseKey g.out n,
   outN.foldl (fun mm dst => updateEntry mm dst (fun l => l.erase n)) g.inn⟩

/-- `Link`: add both endpoints, then insert the edge into both maps. -/
def Graph.link (g : Graph) (src dst : Nat) : Graph :=
  let g1 := (g.add src).add dst
  ⟨updateEntry g1.out src (fun l => insertNb l dst),
   updateEntry g1.inn dst (fun l => insertNb l src)⟩

/-- `Unlink`: remove the edge from both maps, guarding each side on the
presence of its key exactly as the Go code does. -/
def Graph.unlink (g : Graph) (src dst : Nat) : Graph :=
  ⟨if hasKey g.out src then updateEntry g.out src (fun l => l.erase dst) else g.out,
   if hasKey g.inn dst then updateEntry g.inn dst (fun l => l.erase src) else g.inn⟩

/-- The `dfser` struct: the adjacency map being traversed, the accumulated
post-order, and the polarity-flipping visited markers. -/
structure dfser where
  graph : AdjList
  order : List Nat
  flip : List Bool
deriving Repr, DecidableEq

/-- `sawTrue`: read `flip[node]` (panic → `none` when out of range), set it
to `true`, return the old value. -/
def sawTrue (d : dfser) (node : Nat) : Option (Bool × dfser) :=
  match d.flip.get? node with
  | none => none
  | some r => some (r, { d with flip := d.flip.set node true })

/-- `sawFalse`: read `flip[node]` (panic → `none` when out of range), set it
to `false`, return the negated old value. -/
def sawFalse (d : dfser) (node : Nat) : Option (Bool × dfser) :=
  match d.flip.get? node with
  | none => none
  | some r => some (!r, { d with flip := d.flip.set node false })

/-- Body of `dfs1` on `node`, processing the remaining neighbour list `nbs`:
visit each not-yet-`true` neighbour recursively, then append `node` to
`order`.  `fuel` only forces structural recursion; see the header comment. -/
def dfs1go : Nat → Nat → dfser → List Nat → Option dfser
  | 0, _, _, _ => none
  | _ + 1, node, d, [] => some { d with order := d.order ++ [node] }
  | fuel + 1, node, d, nb :: rest =>
    match sawTrue d nb with
    | none => none
    | some (true, d1) => dfs1go fuel node d1 rest
    | some (false, d1) =>
      match dfs1go fuel nb d1 (lookupAdj d1.graph nb) with
      | none => none
      | some d2 => dfs1go fuel node d2 rest

/-- Body of `dfs2` on `node` (identical to `dfs1` with the marker polarity
flipped: a neighbour is recursed into when `sawFalse` returns `false`). -/
def dfs2go : Nat → Nat → dfser → List Nat → Option dfser
  | 0, _, _, _ => none
  | _ + 1, node, d, [] => some { d with order := d.order ++ [node] }
  | fuel + 1, node, d, nb :: rest =>
    match sawFalse d nb with
    | none => none
    | some (true, d1) => dfs2go fuel node d1 rest
    | some (false, d1) =>
      match dfs2go fuel nb d1 (lookupAdj d1.graph nb) with
      | none => none
      | some d2 => dfs2go fuel node d2 rest

/-- The first loop of `StrongComponents`: `for node := range g.out`, running
`dfs1` from every root whose marker is still `false`. -/
def pass1 : Nat → dfser → List Nat → Option dfser
  | _, d, [] => some d
  | fuel, d, k :: ks =>
    match sawTrue d k with
    | none => none
    | some (true, d1) => pass1 fuel d1 ks
    | some (false, d1) =>
      match dfs1go fuel k d1 (lookupAdj d1.graph k) with
      | none => none
      | some d2 => pass1 fuel d2 ks

/-- The second loop of `StrongComponents`: walk the pass-1 order backwards,
run `dfs2` from every node whose marker is still `true`, and cut the nodes
appended by that run out of `order` as one component. -/
def pass2 : Nat → dfser → List Nat → List (List Nat) → Option (List (List Nat))
  | _, _, [], acc => some acc
  | fuel, d, k :: ks, acc =>
    match sawFalse d k with
    | none => none
    | some (true, d1) => pass2 fuel d1 ks acc
    | some (false, d1) =>
      match dfs2go fuel k d1 (lookupAdj d1.graph k) with
      | none => none
      | some d2 => pass2 fuel { d2 with order := [] } ks (acc ++ [d2.order])

/-- Total size of the neighbour sets of an adjacency map. -/
def sumSizes (m : AdjList) : Nat :=
  m.foldl (fun a p => a + p.2.length) 0

/-- `StrongComponents`: pass 1 over `g.out` builds the finish order, pass 2
over `g.in` (walking that order backwards) extracts the components.  `none`
models the Go panic on an out-of-range `flip` index. -/
def Graph.strongComponents (g : Graph) : Option (List (List Nat)) :=
  let m := g.out.length
  let fuelA := 2 + 2 * (m + sumSizes g.out + sumSizes g.inn + g.inn.length)
  let d0 : dfser := ⟨g.out, [], List.replicate m false⟩
  match pass1 fuelA d0 (g.out.map Prod.fst) with
  | none => none
  | some d1 =>
    pass2 fuelA ⟨g.inn, [], d1.flip⟩ d1.order.reverse []

/-- The graph has the directed edge `u → v`: `v ∈ out[u]`. -/
def EdgeOut (g : Graph) (u v : Nat) : Prop :=
  hasKey g.out u = true ∧ v ∈ lookupAdj g.out u

instance (g : Graph) (u v : Nat) : Decidable (EdgeOut g u v) :=
  inferInstanceAs (Decidable (_ ∧ _))

/-- There is a directed path (possibly empty) from `u` to `v`. -/
def Reaches (g : Graph) : Nat → Nat → Prop :=
  Relation.ReflTransGen (EdgeOut g)

/-- `u` and `v` lie in one of the returned components. -/
def SameComponent (comps : List (List Nat)) (u v : Nat) : Prop :=
  ∃ c ∈ comps, u ∈ c ∧ v ∈ c

instance (comps : List (List Nat)) (u v : Nat) :
    Decidable (SameComponent comps u v) := by
  unfold SameComponent; infer_instance

/-- The returned sequence is in dependency order: no edge of `g` goes from a
component to a strictly later component (depended-upon components come
first). -/
def DepOrdered (g : Graph) (comps : List (List Nat)) : Prop :=
  ∀ i j : Fin comps.length, i.val < j.val →
    ∀ u ∈ comps.get i, ∀ v ∈ comps.get j, ¬ EdgeOut g u v

instance (g : Graph) (comps : List (List Nat)) :
    Decidable (DepOrdered g comps) := by
  unfold DepOrdered; infer_instance

/-- The mutating operations of the public API. -/
inductive Op where
  | add : Nat → Op
  | remove : Nat → Op
  | link : Nat → Nat → Op
  | unlink : Nat → Nat → Op
deriving Repr, DecidableEq

def applyOp (g : Graph) : Op → Graph
  | .add n => g.add n
  | .remove n => g.remove n
  | .link s d => g.link s d
  | .unlink s d => g.unlink s d

/-- Run a sequence of API operations starting from the empty graph. -/
def runOps (ops : List Op) : Graph :=
  ops.foldl applyOp Graph.new

def Op.isRemove : Op → Bool
  | .remove _ => true
  | _ => false

/-- The documented invariant: `dst ∈ out[src] ⟺ src ∈ in[dst]`. -/
def Mirror (g : Graph) : Prop :=
  ∀ s d : Nat,
    (hasKey g.out s = true ∧ d ∈ lookupAdj g.out s) ↔
    (hasKey g.inn d = true ∧ s ∈ lookupAdj g.inn d)

/-- Well-formedness of a graph state: `out` and `inn` have the same key set,
they mirror each other, every neighbour is itself a key, and neighbour lists
are duplicate-free (Go map invariants).  Preserved by `Add`/`Link`/`Unlink`
but not by `Remove` followed by re-adding. -/
def GoodState (g : Graph) : Prop :=
  (∀ k, hasKey g.out k = hasKey g.inn k) ∧
  Mirror g ∧
  (∀ s d : Nat, d ∈ lookupAdj g.out s → hasKey g.out d = true) ∧
  (∀ d s : Nat, s ∈ lookupAdj g.inn d → hasKey g.out s = true) ∧
  (∀ s : Nat, (lookupAdj g.out s).Nodup) ∧
  (∀ d : Nat, (lookupAdj g.inn d).Nodup)

/-- The indices of the marker array currently set to `true`. -/
def truesF (l : List Bool) : Finset Nat :=
  (Finset.range l.length).filter (fun i => l.get? i = some true)

/-- The indices of the marker array currently set to `false`. -/
def falsesF (l : List Bool) : Finset Nat :=
  (Finset.range l.length).filter (fun i => l.get? i = some false)

/-- The graph built by `Link(0,1); Link(1,2); Link(2,0); Remove(1); Add(1);
Link(1,2); Remove(2); Add(2); Link(2,0)`.  Its `out` map holds the full
cycle `0 → 1 → 2 → 0`, but `Remove` left `0 → 1` and `1 → 2` as stale `out`
entries and the subsequent `Add` reset the matching `in` sets, so `in`
retains only the mirror of `2 → 0`. -/
def gBug : Graph :=
  (((((((((Graph.new.link 0 1).link 1 2).link 2 0).remove 1).add 1).link 1
    2).remove 2).add 2).link 2 0)

/-- The graph of the removal scenario:
`Link(1,2); Link(2,1); Link(2,3); Remove(2)`. -/
def gRemoveScenario : Graph :=
  (((Graph.new.link 1 2).link 2 1).link 2 3).remove 2

/-- The graph of the simple chain scenario: `Link(1,2); Link(2,3)`. -/
def gChainScenario : Graph :=
  (Graph.new.link 1 2).link 2 3

/-- The graph of the unlink scenario:
`Link(1,2); Link(2,1); Unlink(2,1)`. -/
def gUnlinkScenario : Graph :=
  ((Graph.new.link 1 2).link 2 1).unlink 2 1

/-! Basic association-list lemmas. -/

theorem lookupAdj_of_not_hasKey : ∀ {m : AdjList} {k : Nat},
    hasKey m k = false → lookupAdj m k = [] := by
  intro m
  induction m with
  | nil => intro k _; rfl
  | cons p t ih =>
    intro k h
    by_cases hp : p.1 = k
    · simp [hasKey, hp] at h
    · simp only [hasKey, if_neg hp] at h
      simpa [lookupAdj, hp] using ih h

theorem hasKey_updateEntry (m : AdjList) (k : Nat) (f : List Nat → List Nat)
    (j : Nat) : hasKey (updateEntry m k f) j = hasKey m j := by
  induction m with
  | nil => rfl
  | cons p t ih =>
    simp only [updateEntry, hasKey]
    by_cases hj : p.1 = j <;> simp [hj, ih]

theorem lookupAdj_updateEntry_ne (m : AdjList) (k : Nat)
    (f : List Nat → List Nat) (j : Nat) (hne : j ≠ k) :
    lookupAdj (updateEntry m k f) j = lookupAdj m j := by
  induction m with
  | nil => rfl
  | cons p t ih =>
    simp only [updateEntry, lookupAdj]
    by_cases hj : p.1 = j
    · have hk : ¬ p.1 = k := by rw [hj]; exact hne
      simp [hj, hk, hne]
    · simp [hj, ih]

theorem lookupAdj_updateEntry_self (m : AdjList) (k : Nat)
    (f : List Nat → List Nat) :
    lookupAdj (updateEntry m k f) k =
      if hasKey m k then f (lookupAdj m k) else lookupAdj m k := by
  induction m with
  | nil => rfl
  | cons p t ih =>
    simp only [updateEntry, lookupAdj, hasKey]
    by_cases h : p.1 = k <;> simp [h, ih]

theorem hasKey_append_single (m : AdjList) (n : Nat) (v : List Nat) (k : Nat) :
    hasKey (m ++ [(n, v)]) k = (hasKey m k || decide (n = k)) := by
  induction m with
  | nil => simp [hasKey]
  | cons p t ih =>
    by_cases h : p.1 = k <;> simp [hasKey, h, ih]

theorem lookupAdj_append_single_ne (m : AdjList) (n : Nat) (v : List Nat)
    (k : Nat) (hne : k ≠ n) : lookupAdj (m ++ [(n, v)]) k = lookupAdj m k := by
  induction m with
  | nil => simp [lookupAdj, (Ne.symm hne : ¬ n = k)]
  | cons p t ih =>
    by_cases h : p.1 = k <;> simp [lookupAdj, h, ih]

theorem lookupAdj_append_single_self (m : AdjList) (n : Nat) (v : List Nat)
    (h : hasKey m n = false) : lookupAdj (m ++ [(n, v)]) n = v := by
  induction m with
  | nil => simp [lookupAdj]
  | cons p t ih =>
    by_cases hp : p.1 = n
    · simp [hasKey, hp] at h
    · simp only [hasKey, if_neg hp] at h
      simpa [lookupAdj, hp] using ih h

theorem hasKey_eraseKey_self (m : AdjList) (k : Nat) :
    hasKey (eraseKey m k) k = false := by
  induction m with
  | nil => rfl
  | cons p t ih =>
    by_cases h : p.1 = k <;> simp [eraseKey, hasKey, h, ih]

theorem setEntry_of_not_hasKey (m : AdjList) (k : Nat) (v : List Nat)
    (h : hasKey m k = false) : setEntry m k v = m ++ [(k, v)] := by
  simp [setEntry, h]

theorem hasKey_foldl_update (f : List Nat → List Nat) :
    ∀ (l : List Nat) (mm : AdjList) (j : Nat),
      hasKey (l.foldl (fun acc dst => updateEntry acc dst f) mm) j =
        hasKey mm j := by
  intro l
  induction l with
  | nil => intro mm j; rfl
  | cons a t ih =>
    intro mm j
    simp only [List.foldl_cons]
    rw [ih, hasKey_updateEntry]

theorem lookupAdj_foldl_update_not_mem (f : List Nat → List Nat) :
    ∀ (l : List Nat) (mm : AdjList) (j : Nat), j ∉ l →
      lookupAdj (l.foldl (fun acc dst => updateEntry acc dst f) mm) j =
        lookupAdj mm j := by
  intro l
  induction l with
  | nil => intro mm j _; rfl
  | cons a t ih =>
    intro mm j hj
    simp only [List.mem_cons, not_or] at hj
    simp only [List.foldl_cons]
    rw [ih _ _ hj.2, lookupAdj_updateEntry_ne _ _ _ _ hj.1]

/-- After folding `erase n` over the `in` entries of every element of `l`,
no entry looked up at an element of `l` contains `n` any more (given the
entries are duplicate-free sets, as Go maps guarantee). -/
theorem scrub_removes (n : Nat) :
    ∀ (l : List Nat) (mm : AdjList),
      (∀ j ∈ l, (lookupAdj mm j).Nodup) → ∀ j ∈ l,
        n ∉ lookupAdj
          (l.foldl (fun acc dst => updateEntry acc dst (fun s => s.erase n)) mm)
          j := by
  intro l
  induction l with
  | nil => intro mm _ j hj; simp at hj
  | cons a t ih =>
    intro mm hnd j hj
    simp only [List.foldl_cons]
    have hnd' : ∀ j ∈ t, (lookupAdj (updateEntry mm a (fun s => s.erase n)) j).Nodup := by
      intro j' hj'
      by_cases hja : j' = a
      · subst hja
        rw [lookupAdj_updateEntry_self]
        by_cases hk : hasKey mm j'
        · simp only [hk, if_true]
          exact (hnd j' (List.mem_cons_of_mem _ hj')).erase n
        · simp only [hk]
          simp only [Bool.not_eq_true] at hk
          simp [lookupAdj_of_not_hasKey hk]
      · rw [lookupAdj_updateEntry_ne _ _ _ _ hja]
        exact hnd j' (List.mem_cons_of_mem _ hj')
    rcases List.mem_cons.mp hj with rfl | hjt
    · by_cases hjt : j ∈ t
      · exact ih _ hnd' j hjt
      · rw [lookupAdj_foldl_update_not_mem _ _ _ _ hjt,
          lookupAdj_updateEntry_self]
        by_cases hk : hasKey mm j
        · simp only [hk, if_true]
          exact (hnd j (List.mem_cons_self _ _)).not_mem_erase
        · simp only [hk]
          simp only [Bool.not_eq_true] at hk
          simp [lookupAdj_of_not_hasKey hk]
    · exact ih _ hnd' j hjt

theorem updateEntry_of_not_hasKey (m : AdjList) (k : Nat)
    (f : List Nat → List Nat) (h : hasKey m k = false) :
    updateEntry m k f = m := by
  induction m with
  | nil => rfl
  | cons p t ih =>
    by_cases hp : p.1 = k
    · simp [hasKey, hp] at h
    · simp only [hasKey, if_neg hp] at h
      simp [updateEntry, hp, ih h]

theorem mem_insertNb (x : Nat) (l : List Nat) (y : Nat) :
    x ∈ insertNb l y ↔ x ∈ l ∨ x = y := by
  unfold insertNb
  by_cases hy : y ∈ l
  · simp only [if_pos hy]
    exact ⟨Or.inl, fun hh => hh.elim id (fun hx => hx ▸ hy)⟩
  · simp [if_neg hy]

theorem nodup_insertNb (l : List Nat) (y : Nat) (h : l.Nodup) :
    (insertNb l y).Nodup := by
  unfold insertNb
  by_cases hy : y ∈ l
  · simpa [if_pos hy] using h
  · simp [if_neg hy, List.nodup_append, h, hy]

/-- C5 (amended): `Remove(n)` deletes `n`'s entry from the `out` mapping and
scrubs `n` from each successor's `in` set; however `n`'s own entry in the
`in` mapping is retained — the Go code never deletes from `g.in` on removal
(only `delete(g.out, node)` is executed). -/
theorem C5_remove_scrubs_but_keeps_inn_entry (g : Graph) (n : Nat)
    (hpres : hasKey g.out n = true)
    (hnd : ∀ d ∈ lookupAdj g.out n, (lookupAdj g.inn d).Nodup) :
    hasKey (g.remove n).out n = false ∧
    (∀ d ∈ lookupAdj g.out n, n ∉ lookupAdj (g.remove n).inn d) ∧
    (hasKey g.inn n = true → hasKey (g.remove n).inn n = true) := by
  refine ⟨?_, ?_, ?_⟩
  · simp [Graph.remove, hasKey_eraseKey_self]
  · intro d hd
    simp only [Graph.remove]
    exact scrub_removes n (lookupAdj g.out n) g.inn hnd d hd
  · intro h
    simp only [Graph.remove]
    rw [hasKey_foldl_update]
    exact h

/-- Witness for the amended C5 theorem at the graph `Link(0,1)`, removing
node `0`. -/
theorem C5_remove_scrubs_but_keeps_inn_entry_witness :
    hasKey ((Graph.new.link 0 1).remove 0).out 0 = false ∧
    (∀ d ∈ lookupAdj (Graph.new.link 0 1).out 0,
      0 ∉ lookupAdj ((Graph.new.link 0 1).remove 0).inn d) ∧
    (hasKey (Graph.new.link 0 1).inn 0 = true →
      hasKey ((Graph.new.link 0 1).remove 0).inn 0 = true) :=
  C5_remove_scrubs_but_keeps_inn_entry (Graph.new.link 0 1) 0 (by decide)
    (by decide)

theorem good_new : GoodState Graph.new := by
  refine ⟨fun k => rfl, fun s d => ?_, fun s d hmem => ?_, fun d s hmem => ?_,
    fun s => ?_, fun d => ?_⟩ <;>
    simp [Graph.new, lookupAdj, hasKey] at *

theorem good_add (g : Graph) (n : Nat) (h : GoodState g) :
    GoodState (g.add n) := by
  obtain ⟨h1, h2, h3, h4, h5, h6⟩ := h
  by_cases hk : hasKey g.out n = true
  · simp only [Graph.add, hk, if_true]
    exact ⟨h1, h2, h3, h4, h5, h6⟩
  · have hkf : hasKey g.out n = false := by simpa using hk
    have hki : hasKey g.inn n = false := by rw [← h1]; exact hkf
    have hadd : g.add n = ⟨g.out ++ [(n, [])], g.inn ++ [(n, [])]⟩ := by
      simp [Graph.add, hkf, setEntry_of_not_hasKey _ _ _ hki]
    rw [hadd]
    have loutn : lookupAdj (g.out ++ [(n, [])]) n = ([] : List Nat) :=
      lookupAdj_append_single_self _ _ _ hkf
    have linnn : lookupAdj (g.inn ++ [(n, [])]) n = ([] : List Nat) :=
      lookupAdj_append_single_self _ _ _ hki
    have loutne : ∀ k, k ≠ n →
        lookupAdj (g.out ++ [(n, [])]) k = lookupAdj g.out k :=
      fun k hne => lookupAdj_append_single_ne _ _ _ _ hne
    have linnne : ∀ k, k ≠ n →
        lookupAdj (g.inn ++ [(n, [])]) k = lookupAdj g.inn k :=
      fun k hne => lookupAdj_append_single_ne _ _ _ _ hne
    have hno : ∀ s : Nat, n ∉ lookupAdj g.out s := by
      intro s hmem
      exact absurd (h3 s n hmem) (by simp [hkf])
    have hni : ∀ d : Nat, n ∉ lookupAdj g.inn d := by
      intro d hmem
      exact absurd (h4 d n hmem) (by simp [hkf])
    refine ⟨?_, ?_, ?_, ?_, ?_, ?_⟩
    · intro k
      rw [hasKey_append_single, hasKey_append_single, h1]
    · intro s d
      by_cases hs : s = n
      · subst hs
        rw [loutn]
        constructor
        · rintro ⟨_, hd⟩; exact absurd hd (List.not_mem_nil _)
        · rintro ⟨hkd, hsd⟩
          exfalso
          rcases eq_or_ne d s with rfl | hd
          · rw [linnn] at hsd; exact (List.not_mem_nil _) hsd
          · rw [linnne d hd] at hsd; exact hni d hsd
      · rw [loutne s hs]
        by_cases hd : d = n
        · subst hd
          rw [linnn]
          constructor
          · rintro ⟨_, hmem⟩; exact absurd hmem (hno s)
          · rintro ⟨_, hmem⟩; exact absurd hmem (List.not_mem_nil _)
        · rw [linnne d hd, hasKey_append_single, hasKey_append_single]
          constructor
          · rintro ⟨hks, hmem⟩
            have hks' : hasKey g.out s = true := by
              simpa [show ¬ n = s from fun hh => hs hh.symm] using hks
            have hmir := (h2 s d).mp ⟨hks', hmem⟩
            exact ⟨by simp [hmir.1], hmir.2⟩
          · rintro ⟨hkd, hmem⟩
            have hkd' : hasKey g.inn d = true := by
              simpa [show ¬ n = d from fun hh => hd hh.symm] using hkd
            have hmir := (h2 s d).mpr ⟨hkd', hmem⟩
            exact ⟨by simp [hmir.1], hmir.2⟩
    · intro s d hmem
      rcases eq_or_ne s n with rfl | hs
      · rw [loutn] at hmem; exact absurd hmem (List.not_mem_nil _)
      · rw [loutne s hs] at hmem
        rw [hasKey_append_single]
        simp [h3 s d hmem]
    · intro d s hmem
      rcases eq_or_ne d n with rfl | hd
      · rw [linnn] at hmem; exact absurd hmem (List.not_mem_nil _)
      · rw [linnne d hd] at hmem
        rw [hasKey_append_single]
        simp [h4 d s hmem]
    · intro s
      rcases eq_or_ne s n with rfl | hs
      · rw [loutn]; exact List.nodup_nil
      · rw [loutne s hs]; exact h5 s
    · intro d
      rcases eq_or_ne d n with rfl | hd
      · rw [linnn]; exact List.nodup_nil
      · rw [linnne d hd]; exact h6 d

theorem hasKey_add_self (g : Graph) (n : Nat) :
    hasKey (g.add n).out n = true := by
  by_cases hk : hasKey g.out n = true
  · simp [Graph.add, hk]
  · have hkf : hasKey g.out n = false := by simpa using hk
    simp [Graph.add, hkf, hasKey_append_single]

theorem hasKey_add_mono (g : Graph) (n k : Nat)
    (h : hasKey g.out k = true) : hasKey (g.add n).out k = true := by
  by_cases hn : hasKey g.out n = true
  · simpa [Graph.add, hn] using h
  · have hnf : hasKey g.out n = false := by simpa using hn
    simp [Graph.add, hnf, hasKey_append_single, h]

theorem good_link (g : Graph) (a b : Nat) (h : GoodState g) :
    GoodState (g.link a b) := by
  have hg2 : GoodState ((g.add a).add b) := good_add _ b (good_add _ a h)
  have hka : hasKey ((g.add a).add b).out a = true :=
    hasKey_add_mono _ b a (hasKey_add_self g a)
  have hkb : hasKey ((g.add a).add b).out b = true := hasKey_add_self _ b
  obtain ⟨h1, h2, h3, h4, h5, h6⟩ := hg2
  have hkbi : hasKey ((g.add a).add b).inn b = true := by rw [← h1]; exact hkb
  have hlink : g.link a b =
      ⟨updateEntry ((g.add a).add b).out a (fun l => insertNb l b),
       updateEntry ((g.add a).add b).inn b (fun l => insertNb l a)⟩ := rfl
  rw [hlink]
  have louta : lookupAdj
      (updateEntry ((g.add a).add b).out a (fun l => insertNb l b)) a =
      insertNb (lookupAdj ((g.add a).add b).out a) b := by
    rw [lookupAdj_updateEntry_self]; simp [hka]
  have loutne : ∀ s, s ≠ a → lookupAdj
      (updateEntry ((g.add a).add b).out a (fun l => insertNb l b)) s =
      lookupAdj ((g.add a).add b).out s :=
    fun s hs => lookupAdj_updateEntry_ne _ _ _ _ hs
  have linnb : lookupAdj
      (updateEntry ((g.add a).add b).inn b (fun l => insertNb l a)) b =
      insertNb (lookupAdj ((g.add a).add b).inn b) a := by
    rw [lookupAdj_updateEntry_self]; simp [hkbi]
  have linnne : ∀ d, d ≠ b → lookupAdj
      (updateEntry ((g.add a).add b).inn b (fun l => insertNb l a)) d =
      lookupAdj ((g.add a).add b).inn d :=
    fun d hd => lookupAdj_updateEntry_ne _ _ _ _ hd
  refine ⟨?_, ?_, ?_, ?_, ?_, ?_⟩
  · intro k
    rw [hasKey_updateEntry, hasKey_updateEntry, h1]
  · intro s d
    rw [hasKey_updateEntry, hasKey_updateEntry]
    by_cases hs : s = a
    · rw [hs, louta]
      by_cases hd : d = b
      · rw [hd, linnb]
        exact iff_of_true ⟨hka, (mem_insertNb _ _ _).mpr (Or.inr rfl)⟩
          ⟨hkbi, (mem_insertNb _ _ _).mpr (Or.inr rfl)⟩
      · rw [linnne d hd]
        constructor
        · rintro ⟨_, hmem⟩
          rcases (mem_insertNb _ _ _).mp hmem with hmem' | hdb
          · exact (h2 a d).mp ⟨hka, hmem'⟩
          · exact absurd hdb hd
        · rintro ⟨hkd, hmem⟩
          exact ⟨hka, (mem_insertNb _ _ _).mpr
            (Or.inl ((h2 a d).mpr ⟨hkd, hmem⟩).2)⟩
    · rw [loutne s hs]
      by_cases hd : d = b
      · rw [hd, linnb]
        constructor
        · rintro ⟨hks, hmem⟩
          exact ⟨hkbi, (mem_insertNb _ _ _).mpr
            (Or.inl ((h2 s b).mp ⟨hks, hmem⟩).2)⟩
        · rintro ⟨_, hmem⟩
          rcases (mem_insertNb _ _ _).mp hmem with hmem' | hsa
          · exact (h2 s b).mpr ⟨hkbi, hmem'⟩
          · exact absurd hsa hs
      · rw [linnne d hd]
        exact h2 s d
  · intro s d hmem
    rw [hasKey_updateEntry]
    by_cases hs : s = a
    · rw [hs, louta] at hmem
      rcases (mem_insertNb _ _ _).mp hmem with hmem' | hdb
      · exact h3 _ _ hmem'
      · rw [hdb]; exact hkb
    · rw [loutne s hs] at hmem
      exact h3 _ _ hmem
  · intro d s hmem
    rw [hasKey_updateEntry]
    by_cases hd : d = b
    · rw [hd, linnb] at hmem
      rcases (mem_insertNb _ _ _).mp hmem with hmem' | hsa
      · exact h4 _ _ hmem'
      · rw [hsa]; exact hka
    · rw [linnne d hd] at hmem
      exact h4 _ _ hmem
  · intro s
    by_cases hs : s = a
    · rw [hs, louta]; exact nodup_insertNb _ _ (h5 a)
    · rw [loutne s hs]; exact h5 s
  · intro d
    by_cases hd : d = b
    · rw [hd, linnb]; exact nodup_insertNb _ _ (h6 b)
    · rw [linnne d hd]; exact h6 d

theorem good_unlink (g : Graph) (a b : Nat) (h : GoodState g) :
    GoodState (g.unlink a b) := by
  obtain ⟨h1, h2, h3, h4, h5, h6⟩ := h
  have hout : (if hasKey g.out a then updateEntry g.out a
      (fun l => l.erase b) else g.out) =
      updateEntry g.out a (fun l => l.erase b) := by
    by_cases hka : hasKey g.out a = true
    · rw [if_pos hka]
    · have hkf : hasKey g.out a = false := by simpa using hka
      rw [if_neg (by simp [hkf]), updateEntry_of_not_hasKey _ _ _ hkf]
  have hinn : (if hasKey g.inn b then updateEntry g.inn b
      (fun l => l.erase a) else g.inn) =
      updateEntry g.inn b (fun l => l.erase a) := by
    by_cases hkb : hasKey g.inn b = true
    · rw [if_pos hkb]
    · have hkf : hasKey g.inn b = false := by simpa using hkb
      rw [if_neg (by simp [hkf]), updateEntry_of_not_hasKey _ _ _ hkf]
  have hun : g.unlink a b =
      ⟨updateEntry g.out a (fun l => l.erase b),
       updateEntry g.inn b (fun l => l.erase a)⟩ := by
    unfold Graph.unlink
    rw [hout, hinn]
  rw [hun]
  have louta : lookupAdj (updateEntry g.out a (fun l => l.erase b)) a =
      if hasKey g.out a then (lookupAdj g.out a).erase b
      else lookupAdj g.out a := lookupAdj_updateEntry_self _ _ _
  have loutne : ∀ s, s ≠ a →
      lookupAdj (updateEntry g.out a (fun l => l.erase b)) s =
        lookupAdj g.out s :=
    fun s hs => lookupAdj_updateEntry_ne _ _ _ _ hs
  have linnb : lookupAdj (updateEntry g.inn b (fun l => l.erase a)) b =
      if hasKey g.inn b then (lookupAdj g.inn b).erase a
      else lookupAdj g.inn b := lookupAdj_updateEntry_self _ _ _
  have linnne : ∀ d, d ≠ b →
      lookupAdj (updateEntry g.inn b (fun l => l.erase a)) d =
        lookupAdj g.inn d :=
    fun d hd => lookupAdj_updateEntry_ne _ _ _ _ hd
  have hnomema : b ∉ lookupAdj (updateEntry g.out a (fun l => l.erase b)) a := by
    rw [louta]
    by_cases hka : hasKey g.out a = true
    · rw [if_pos hka]
      exact (h5 a).not_mem_erase
    · have hkf : hasKey g.out a = false := by simpa using hka
      rw [if_neg (by simp [hkf]), lookupAdj_of_not_hasKey hkf]
      exact List.not_mem_nil _
  have hnomemb : a ∉ lookupAdj (updateEntry g.inn b (fun l => l.erase a)) b := by
    rw [linnb]
    by_cases hkb : hasKey g.inn b = true
    · rw [if_pos hkb]
      exact (h6 b).not_mem_erase
    · have hkf : hasKey g.inn b = false := by simpa using hkb
      rw [if_neg (by simp [hkf]), lookupAdj_of_not_hasKey hkf]
      exact List.not_mem_nil _
  refine ⟨?_, ?_, ?_, ?_, ?_, ?_⟩
  · intro k
    rw [hasKey_updateEntry, hasKey_updateEntry, h1]
  · intro s d
    rw [hasKey_updateEntry, hasKey_updateEntry]
    by_cases hs : s = a
    · rw [hs]
      by_cases hd : d = b
      · rw [hd]
        refine iff_of_false ?_ ?_
        · rintro ⟨_, hmem⟩; exact hnomema hmem
        · rintro ⟨_, hmem⟩; exact hnomemb hmem
      · rw [louta, linnne d hd]
        by_cases hka : hasKey g.out a = true
        · rw [if_pos hka, List.mem_erase_of_ne hd]
          exact h2 a d
        · have hkf : hasKey g.out a = false := by simpa using hka
          rw [if_neg (by simp [hkf])]
          exact h2 a d
    · rw [loutne s hs]
      by_cases hd : d = b
      · rw [hd, linnb]
        by_cases hkb : hasKey g.inn b = true
        · rw [if_pos hkb, List.mem_erase_of_ne hs]
          exact h2 s b
        · have hkf : hasKey g.inn b = false := by simpa using hkb
          rw [if_neg (by simp [hkf])]
          exact h2 s b
      · rw [linnne d hd]
        exact h2 s d
  · intro s d hmem
    rw [hasKey_updateEntry]
    by_cases hs : s = a
    · rw [hs, louta] at hmem
      by_cases hka : hasKey g.out a = true
      · rw [if_pos hka] at hmem
        exact h3 _ _ (List.mem_of_mem_erase hmem)
      · have hkf : hasKey g.out a = false := by simpa using hka
        rw [if_neg (by simp [hkf])] at hmem
        exact h3 _ _ hmem
    · rw [loutne s hs] at hmem
      exact h3 _ _ hmem
  · intro d s hmem
    rw [hasKey_updateEntry]
    by_cases hd : d = b
    · rw [hd, linnb] at hmem
      by_cases hkb : hasKey g.inn b = true
      · rw [if_pos hkb] at hmem
        exact h4 _ _ (List.mem_of_mem_erase hmem)
      · have hkf : hasKey g.inn b = false := by simpa using hkb
        rw [if_neg (by simp [hkf])] at hmem
        exact h4 _ _ hmem
    · rw [linnne d hd] at hmem
      exact h4 _ _ hmem
  · intro s
    by_cases hs : s = a
    · rw [hs, louta]
      by_cases hka : hasKey g.out a = true
      · rw [if_pos hka]; exact (h5 a).erase b
      · have hkf : hasKey g.out a = false := by simpa using hka
        rw [if_neg (by simp [hkf])]; exact h5 a
    · rw [loutne s hs]; exact h5 s
  · intro d
    by_cases hd : d = b
    · rw [hd, linnb]
      by_cases hkb : hasKey g.inn b = true
      · rw [if_pos hkb]; exact (h6 b).erase a
      · have hkf : hasKey g.inn b = false := by simpa using hkb
        rw [if_neg (by simp [hkf])]; exact h6 b
    · rw [linnne d hd]; exact h6 d

theorem good_run : ∀ (ops : List Op) (g : Graph), GoodState g →
    (∀ o ∈ ops, o.isRemove = false) → GoodState (ops.foldl applyOp g) := by
  intro ops
  induction ops with
  | nil => intro g hg _; exact hg
  | cons o t ih =>
    intro g hg hno
    simp only [List.foldl_cons]
    refine ih _ ?_ (fun o' ho' => hno o' (List.mem_cons_of_mem _ ho'))
    cases o with
    | add n => exact good_add g n hg
    | remove n =>
      exact absurd (hno _ (List.mem_cons_self _ _)) (by simp [Op.isRemove])
    | link s d => exact good_link g s d hg
    | unlink s d => exact good_unlink g s d hg

/-- C6 (amended): the mirror invariant `dst ∈ out[src] ⟺ src ∈ in[dst]`
holds for every graph reachable from the empty graph by `Add`, `Link` and
`Unlink` operations; `Remove` can break it (see the counterexample), because
re-adding a removed node resets its `in` entry while stale `out` references
to it survive. -/
theorem C6_mirror_holds_without_remove (ops : List Op)
    (h : ∀ o ∈ ops, o.isRemove = false) : Mirror (runOps ops) :=
  (good_run ops Graph.new good_new h).2.1

/-- Witness for the amended C6 theorem on the sequence `Link(0,1)`. -/
theorem C6_mirror_holds_without_remove_witness :
    Mirror (runOps [Op.link 0 1]) :=
  C6_mirror_holds_without_remove [Op.link 0 1] (by decide)

/-! Lemmas about the traversal state. -/

theorem sawTrue_some {d : dfser} {node : Nat} {b : Bool} {d1 : dfser}
    (h : sawTrue d node = some (b, d1)) :
    d.flip.get? node = some b ∧ d1.graph = d.graph ∧ d1.order = d.order ∧
      d1.flip = d.flip.set node true := by
  unfold sawTrue at h
  cases hg : d.flip.get? node with
  | none => rw [hg] at h; exact Option.noConfusion h
  | some r =>
    rw [hg] at h
    simp only [Option.some.injEq, Prod.mk.injEq] at h
    obtain ⟨hb, hd⟩ := h
    exact ⟨by rw [hb], by rw [← hd], by rw [← hd], by rw [← hd]⟩

theorem sawFalse_some {d : dfser} {node : Nat} {b : Bool} {d1 : dfser}
    (h : sawFalse d node = some (b, d1)) :
    d.flip.get? node = some (!b) ∧ d1.graph = d.graph ∧ d1.order = d.order ∧
      d1.flip = d.flip.set node false := by
  unfold sawFalse at h
  cases hg : d.flip.get? node with
  | none => rw [hg] at h; exact Option.noConfusion h
  | some r =>
    rw [hg] at h
    simp only [Option.some.injEq, Prod.mk.injEq] at h
    obtain ⟨hb, hd⟩ := h
    exact ⟨by rw [← hb, Bool.not_not],
           by rw [← hd], by rw [← hd], by rw [← hd]⟩

theorem set_get?_self : ∀ (l : List Bool) (n : Nat) (a : Bool),
    l.get? n = some a → l.set n a = l := by
  intro l
  induction l with
  | nil => intro n a h; cases n <;> simp [List.get?] at h
  | cons x t ih =>
    intro n a h
    cases n with
    | zero =>
      simp only [List.get?, Option.some.injEq] at h
      simp [List.set, h]
    | succ n =>
      simp only [List.get?] at h
      simp [List.set, ih n a h]

theorem mem_truesF {x : Nat} {l : List Bool} :
    x ∈ truesF l ↔ x < l.length ∧ l.get? x = some true := by
  simp [truesF, Finset.mem_filter, Finset.mem_range]

theorem mem_falsesF {x : Nat} {l : List Bool} :
    x ∈ falsesF l ↔ x < l.length ∧ l.get? x = some false := by
  simp [falsesF, Finset.mem_filter, Finset.mem_range]

theorem lt_length_of_get?_some {l : List Bool} {n : Nat} {a : Bool}
    (h : l.get? n = some a) : n < l.length := by
  by_contra hge
  rw [List.get?_eq_none.mpr (Nat.le_of_not_lt hge)] at h
  exact Option.noConfusion h

theorem truesF_set_true {l : List Bool} {n : Nat}
    (h : l.get? n = some false) :
    n ∉ truesF l ∧ truesF (l.set n true) = insert n (truesF l) := by
  have hn : n < l.length := lt_length_of_get?_some h
  constructor
  · intro hmem
    rw [mem_truesF] at hmem
    rw [h] at hmem
    exact Option.noConfusion hmem.2 (fun hh => Bool.noConfusion hh)
  · ext x
    rw [mem_truesF, Finset.mem_insert, mem_truesF, List.length_set]
    by_cases hx : x = n
    · rw [hx]
      constructor
      · intro _; exact Or.inl rfl
      · intro _; exact ⟨hn, List.get?_set_eq_of_lt _ hn⟩
    · rw [List.get?_set_ne _ _ (fun hh => hx hh.symm)]
      constructor
      · rintro ⟨h1, h2⟩; exact Or.inr ⟨h1, h2⟩
      · rintro (hh | ⟨h1, h2⟩)
        · exact absurd hh hx
        · exact ⟨h1, h2⟩

theorem falsesF_set_false {l : List Bool} {n : Nat}
    (h : l.get? n = some true) :
    n ∉ falsesF l ∧ falsesF (l.set n false) = insert n (falsesF l) := by
  have hn : n < l.length := lt_length_of_get?_some h
  constructor
  · intro hmem
    rw [mem_falsesF] at hmem
    rw [h] at hmem
    exact Option.noConfusion hmem.2 (fun hh => Bool.noConfusion hh)
  · ext x
    rw [mem_falsesF, Finset.mem_insert, mem_falsesF, List.length_set]
    by_cases hx : x = n
    · rw [hx]
      constructor
      · intro _; exact Or.inl rfl
      · intro _; exact ⟨hn, List.get?_set_eq_of_lt _ hn⟩
    · rw [List.get?_set_ne _ _ (fun hh => hx hh.symm)]
      constructor
      · rintro ⟨h1, h2⟩; exact Or.inr ⟨h1, h2⟩
      · rintro (hh | ⟨h1, h2⟩)
        · exact absurd hh hx
        · exact ⟨h1, h2⟩

theorem truesF_subset_set_true (l : List Bool) (n : Nat) :
    truesF l ⊆ truesF (l.set n true) := by
  intro x hx
  rw [mem_truesF] at hx ⊢
  rw [List.length_set]
  refine ⟨hx.1, ?_⟩
  by_cases hxn : x = n
  · rw [hxn, List.get?_set_eq_of_lt _ (hxn ▸ hx.1)]
  · rw [List.get?_set_ne _ _ (fun hh => hxn hh.symm)]
    exact hx.2

theorem falsesF_subset_set_false (l : List Bool) (n : Nat) :
    falsesF l ⊆ falsesF (l.set n false) := by
  intro x hx
  rw [mem_falsesF] at hx ⊢
  rw [List.length_set]
  refine ⟨hx.1, ?_⟩
  by_cases hxn : x = n
  · rw [hxn, List.get?_set_eq_of_lt _ (hxn ▸ hx.1)]
  · rw [List.get?_set_ne _ _ (fun hh => hxn hh.symm)]
    exact hx.2

theorem truesF_replicate_false (m : Nat) :
    truesF (List.replicate m false) = ∅ := by
  ext x
  rw [mem_truesF]
  simp only [Finset.not_mem_empty, iff_false, not_and, List.length_replicate]
  intro hx
  rw [List.get?_eq_get (by simpa using hx)]
  simp [List.get_replicate]

/-- The `dfs1` body never changes the `graph` field or the length of the
marker array. -/
theorem dfs1go_frame : ∀ (fuel node : Nat) (d : dfser) (nbs : List Nat)
    (d' : dfser), dfs1go fuel node d nbs = some d' →
    d'.graph = d.graph ∧ d'.flip.length = d.flip.length := by
  intro fuel
  induction fuel with
  | zero =>
    intro node d nbs d' h
    exact Option.noConfusion h
  | succ fuel ih =>
    intro node d nbs d' h
    cases nbs with
    | nil =>
      simp only [dfs1go, Option.some.injEq] at h
      rw [← h]
      exact ⟨rfl, rfl⟩
    | cons nb rest =>
      simp only [dfs1go] at h
      split at h
      · exact Option.noConfusion h
      · rename_i d1 heq
        obtain ⟨_, hg, _, hf⟩ := sawTrue_some heq
        obtain ⟨hg', hl'⟩ := ih node d1 rest d' h
        exact ⟨by rw [hg', hg], by rw [hl', hf, List.length_set]⟩
      · rename_i d1 heq
        split at h
        · exact Option.noConfusion h
        · rename_i d2 heq2
          obtain ⟨_, hg1, _, hf1⟩ := sawTrue_some heq
          obtain ⟨hg2, hl2⟩ := ih nb d1 _ d2 heq2
          obtain ⟨hg3, hl3⟩ := ih node d2 rest d' h
          exact ⟨by rw [hg3, hg2, hg1],
                 by rw [hl3, hl2, hf1, List.length_set]⟩

/-- The `dfs2` body never changes the `graph` field or the length of the
marker array. -/
theorem dfs2go_frame : ∀ (fuel node : Nat) (d : dfser) (nbs : List Nat)
    (d' : dfser), dfs2go fuel node d nbs = some d' →
    d'.graph = d.graph ∧ d'.flip.length = d.flip.length := by
  intro fuel
  induction fuel with
  | zero =>
    intro node d nbs d' h
    exact Option.noConfusion h
  | succ fuel ih =>
    intro node d nbs d' h
    cases nbs with
    | nil =>
      simp only [dfs2go, Option.some.injEq] at h
      rw [← h]
      exact ⟨rfl, rfl⟩
    | cons nb rest =>
      simp only [dfs2go] at h
      split at h
      · exact Option.noConfusion h
      · rename_i d1 heq
        obtain ⟨_, hg, _, hf⟩ := sawFalse_some heq
        obtain ⟨hg', hl'⟩ := ih node d1 rest d' h
        exact ⟨by rw [hg', hg], by rw [hl', hf, List.length_set]⟩
      · rename_i d1 heq
        split at h
        · exact Option.noConfusion h
        · rename_i d2 heq2
          obtain ⟨_, hg1, _, hf1⟩ := sawFalse_some heq
          obtain ⟨hg2, hl2⟩ := ih nb d1 _ d2 heq2
          obtain ⟨hg3, hl3⟩ := ih node d2 rest d' h
          exact ⟨by rw [hg3, hg2, hg1],
                 by rw [hl3, hl2, hf1, List.length_set]⟩

/-- `dfs1` only turns markers on. -/
theorem dfs1go_mono : ∀ (fuel node : Nat) (d : dfser) (nbs : List Nat)
    (d' : dfser), dfs1go fuel node d nbs = some d' →
    truesF d.flip ⊆ truesF d'.flip := by
  intro fuel
  induction fuel with
  | zero =>
    intro node d nbs d' h
    exact Option.noConfusion h
  | succ fuel ih =>
    intro node d nbs d' h
    cases nbs with
    | nil =>
      simp only [dfs1go, Option.some.injEq] at h
      rw [← h]
    | cons nb rest =>
      simp only [dfs1go] at h
      split at h
      · exact Option.noConfusion h
      · rename_i d1 heq
        obtain ⟨_, _, _, hf⟩ := sawTrue_some heq
        refine Finset.Subset.trans ?_ (ih node d1 rest d' h)
        rw [hf]
        exact truesF_subset_set_true _ _
      · rename_i d1 heq
        split at h
        · exact Option.noConfusion h
        · rename_i d2 heq2
          obtain ⟨_, _, _, hf⟩ := sawTrue_some heq
          refine Finset.Subset.trans ?_ (Finset.Subset.trans
            (ih nb d1 _ d2 heq2) (ih node d2 rest d' h))
          rw [hf]
          exact truesF_subset_set_true _ _

/-- `dfs2` only turns markers off. -/
theorem dfs2go_mono : ∀ (fuel node : Nat) (d : dfser) (nbs : List Nat)
    (d' : dfser), dfs2go fuel node d nbs = some d' →
    falsesF d.flip ⊆ falsesF d'.flip := by
  intro fuel
  induction fuel with
  | zero =>
    intro node d nbs d' h
    exact Option.noConfusion h
  | succ fuel ih =>
    intro node d nbs d' h
    cases nbs with
    | nil =>
      simp only [dfs2go, Option.some.injEq] at h
      rw [← h]
    | cons nb rest =>
      simp only [dfs2go] at h
      split at h
      · exact Option.noConfusion h
      · rename_i d1 heq
        obtain ⟨_, _, _, hf⟩ := sawFalse_some heq
        refine Finset.Subset.trans ?_ (ih node d1 rest d' h)
        rw [hf]
        exact falsesF_subset_set_false _ _
      · rename_i d1 heq
        split at h
        · exact Option.noConfusion h
        · rename_i d2 heq2
          obtain ⟨_, _, _, hf⟩ := sawFalse_some heq
          refine Finset.Subset.trans ?_ (Finset.Subset.trans
            (ih nb d1 _ d2 heq2) (ih node d2 rest d' h))
          rw [hf]
          exact falsesF_subset_set_false _ _

/-- Accounting for `dfs1`: the nodes appended to `order` are exactly the
markers newly turned on, plus the node itself (whose own marker was already
turned on by the caller). -/
theorem dfs1go_count : ∀ (fuel node : Nat) (d : dfser) (nbs : List Nat)
    (d' : dfser), dfs1go fuel node d nbs = some d' →
    (d'.order : Multiset Nat) + (truesF d.flip).val =
      (d.order : Multiset Nat) + (truesF d'.flip).val + {node} := by
  intro fuel
  induction fuel with
  | zero =>
    intro node d nbs d' h
    exact Option.noConfusion h
  | succ fuel ih =>
    intro node d nbs d' h
    cases nbs with
    | nil =>
      simp only [dfs1go, Option.some.injEq] at h
      rw [← h]
      show ((d.order ++ [node] : List Nat) : Multiset Nat) + _ = _
      rw [← Multiset.coe_add, Multiset.coe_singleton]
      abel
    | cons nb rest =>
      simp only [dfs1go] at h
      split at h
      · exact Option.noConfusion h
      · rename_i d1 heq
        obtain ⟨hget, _, horder, hflip⟩ := sawTrue_some heq
        have hfl : d1.flip = d.flip := by
          rw [hflip, set_get?_self _ _ _ hget]
        have hih := ih node d1 rest d' h
        rw [hfl, horder] at hih
        exact hih
      · rename_i d1 heq
        split at h
        · exact Option.noConfusion h
        · rename_i d2 heq2
          obtain ⟨hget, _, horder, hflip⟩ := sawTrue_some heq
          have hv : (truesF d1.flip).val = nb ::ₘ (truesF d.flip).val := by
            rw [hflip, (truesF_set_true hget).2,
              Finset.insert_val_of_not_mem (truesF_set_true hget).1]
          have hih1 := ih nb d1 (lookupAdj d1.graph nb) d2 heq2
          rw [hv, horder] at hih1
          have hih2 := ih node d2 rest d' h
          have e1 : (d2.order : Multiset Nat) + (truesF d.flip).val =
              (d.order : Multiset Nat) + (truesF d2.flip).val := by
            have h1' : ((d2.order : Multiset Nat) + (truesF d.flip).val) +
                {nb} = ((d.order : Multiset Nat) + (truesF d2.flip).val) +
                {nb} := by
              calc ((d2.order : Multiset Nat) + (truesF d.flip).val) + {nb}
                  = (d2.order : Multiset Nat) +
                    (nb ::ₘ (truesF d.flip).val) := by
                    rw [← Multiset.singleton_add]; abel
                _ = (d.order : Multiset Nat) + (truesF d2.flip).val +
                    {nb} := hih1
            exact add_right_cancel h1'
          have h3 : ((d'.order : Multiset Nat) + (truesF d.flip).val) +
              (truesF d2.flip).val =
              ((d.order : Multiset Nat) + (truesF d'.flip).val + {node}) +
              (truesF d2.flip).val := by
            calc ((d'.order : Multiset Nat) + (truesF d.flip).val) +
                (truesF d2.flip).val
                = ((d'.order : Multiset Nat) + (truesF d2.flip).val) +
                  (truesF d.flip).val := by abel
              _ = ((d2.order : Multiset Nat) + (truesF d'.flip).val +
                  {node}) + (truesF d.flip).val := by rw [hih2]
              _ = ((d2.order : Multiset Nat) + (truesF d.flip).val) +
                  ((truesF d'.flip).val + {node}) := by abel
              _ = ((d.order : Multiset Nat) + (truesF d2.flip).val) +
                  ((truesF d'.flip).val + {node}) := by rw [e1]
              _ = ((d.order : Multiset Nat) + (truesF d'.flip).val +
                  {node}) + (truesF d2.flip).val := by abel
          exact add_right_cancel h3

/-- Accounting for `dfs2`: the nodes appended to `order` are exactly the
markers newly turned off, plus the node itself. -/
theorem dfs2go_count : ∀ (fuel node : Nat) (d : dfser) (nbs : List Nat)
    (d' : dfser), dfs2go fuel node d nbs = some d' →
    (d'.order : Multiset Nat) + (falsesF d.flip).val =
      (d.order : Multiset Nat) + (falsesF d'.flip).val + {node} := by
  intro fuel
  induction fuel with
  | zero =>
    intro node d nbs d' h
    exact Option.noConfusion h
  | succ fuel ih =>
    intro node d nbs d' h
    cases nbs with
    | nil =>
      simp only [dfs2go, Option.some.injEq] at h
      rw [← h]
      show ((d.order ++ [node] : List Nat) : Multiset Nat) + _ = _
      rw [← Multiset.coe_add, Multiset.coe_singleton]
      abel
    | cons nb rest =>
      simp only [dfs2go] at h
      split at h
      · exact Option.noConfusion h
      · rename_i d1 heq
        obtain ⟨hget, _, horder, hflip⟩ := sawFalse_some heq
        have hget' : d.flip.get? nb = some false := by simpa using hget
        have hfl : d1.flip = d.flip := by
          rw [hflip, set_get?_self _ _ _ hget']
        have hih := ih node d1 rest d' h
        rw [hfl, horder] at hih
        exact hih
      · rename_i d1 heq
        split at h
        · exact Option.noConfusion h
        · rename_i d2 heq2
          obtain ⟨hget, _, horder, hflip⟩ := sawFalse_some heq
          have hget' : d.flip.get? nb = some true := by simpa using hget
          have hv : (falsesF d1.flip).val = nb ::ₘ (falsesF d.flip).val := by
            rw [hflip, (falsesF_set_false hget').2,
              Finset.insert_val_of_not_mem (falsesF_set_false hget').1]
          have hih1 := ih nb d1 (lookupAdj d1.graph nb) d2 heq2
          rw [hv, horder] at hih1
          have hih2 := ih node d2 rest d' h
          have e1 : (d2.order : Multiset Nat) + (falsesF d.flip).val =
              (d.order : Multiset Nat) + (falsesF d2.flip).val := by
            have h1' : ((d2.order : Multiset Nat) + (falsesF d.flip).val) +
                {nb} = ((d.order : Multiset Nat) + (falsesF d2.flip).val) +
                {nb} := by
              calc ((d2.order : Multiset Nat) + (falsesF d.flip).val) + {nb}
                  = (d2.order : Multiset Nat) +
                    (nb ::ₘ (falsesF d.flip).val) := by
                    rw [← Multiset.singleton_add]; abel
                _ = (d.order : Multiset Nat) + (falsesF d2.flip).val +
                    {nb} := hih1
            exact add_right_cancel h1'
          have h3 : ((d'.order : Multiset Nat) + (falsesF d.flip).val) +
              (falsesF d2.flip).val =
              ((d.order : Multiset Nat) + (falsesF d'.flip).val + {node}) +
              (falsesF d2.flip).val := by
            calc ((d'.order : Multiset Nat) + (falsesF d.flip).val) +
                (falsesF d2.flip).val
                = ((d'.order : Multiset Nat) + (falsesF d2.flip).val) +
                  (falsesF d.flip).val := by abel
              _ = ((d2.order : Multiset Nat) + (falsesF d'.flip).val +
                  {node}) + (falsesF d.flip).val := by rw [hih2]
              _ = ((d2.order : Multiset Nat) + (falsesF d.flip).val) +
                  ((falsesF d'.flip).val + {node}) := by abel
              _ = ((d.order : Multiset Nat) + (falsesF d2.flip).val) +
                  ((falsesF d'.flip).val + {node}) := by rw [e1]
              _ = ((d.order : Multiset Nat) + (falsesF d'.flip).val +
                  {node}) + (falsesF d2.flip).val := by abel
          exact add_right_cancel h3

theorem pass1_frame : ∀ (ks : List Nat) (fuel : Nat) (d d1 : dfser),
    pass1 fuel d ks = some d1 →
    d1.graph = d.graph ∧ d1.flip.length = d.flip.length := by
  intro ks
  induction ks with
  | nil =>
    intro fuel d d1 h
    simp only [pass1, Option.some.injEq] at h
    rw [← h]
    exact ⟨rfl, rfl⟩
  | cons k t ih =>
    intro fuel d d1 h
    simp only [pass1] at h
    split at h
    · exact Option.noConfusion h
    · rename_i d1' heq
      obtain ⟨_, hg, _, hf⟩ := sawTrue_some heq
      obtain ⟨hg', hl'⟩ := ih fuel d1' d1 h
      exact ⟨by rw [hg', hg], by rw [hl', hf, List.length_set]⟩
    · rename_i d1' heq
      split at h
      · exact Option.noConfusion h
      · rename_i d2 heq2
        obtain ⟨_, hg1, _, hf1⟩ := sawTrue_some heq
        obtain ⟨hg2, hl2⟩ := dfs1go_frame fuel k d1' _ d2 heq2
        obtain ⟨hg3, hl3⟩ := ih fuel d2 d1 h
        exact ⟨by rw [hg3, hg2, hg1],
               by rw [hl3, hl2, hf1, List.length_set]⟩

theorem pass1_mono : ∀ (ks : List Nat) (fuel : Nat) (d d1 : dfser),
    pass1 fuel d ks = some d1 → truesF d.flip ⊆ truesF d1.flip := by
  intro ks
  induction ks with
  | nil =>
    intro fuel d d1 h
    simp only [pass1, Option.some.injEq] at h
    rw [← h]
  | cons k t ih =>
    intro fuel d d1 h
    simp only [pass1] at h
    split at h
    · exact Option.noConfusion h
    · rename_i d1' heq
      obtain ⟨_, _, _, hf⟩ := sawTrue_some heq
      refine Finset.Subset.trans ?_ (ih fuel d1' d1 h)
      rw [hf]
      exact truesF_subset_set_true _ _
    · rename_i d1' heq
      split at h
      · exact Option.noConfusion h
      · rename_i d2 heq2
        obtain ⟨_, _, _, hf⟩ := sawTrue_some heq
        refine Finset.Subset.trans ?_ (Finset.Subset.trans
          (dfs1go_mono fuel k d1' _ d2 heq2) (ih fuel d2 d1 h))
        rw [hf]
        exact truesF_subset_set_true _ _

/-- Accounting for the pass-1 root loop: the nodes appended to `order` are
exactly the markers newly turned on. -/
theorem pass1_count : ∀ (ks : List Nat) (fuel : Nat) (d d1 : dfser),
    pass1 fuel d ks = some d1 →
    (d1.order : Multiset Nat) + (truesF d.flip).val =
      (d.order : Multiset Nat) + (truesF d1.flip).val := by
  intro ks
  induction ks with
  | nil =>
    intro fuel d d1 h
    simp only [pass1, Option.some.injEq] at h
    rw [← h]
  | cons k t ih =>
    intro fuel d d1 h
    simp only [pass1] at h
    split at h
    · exact Option.noConfusion h
    · rename_i d1' heq
      obtain ⟨hget, _, horder, hflip⟩ := sawTrue_some heq
      have hfl : d1'.flip = d.flip := by
        rw [hflip, set_get?_self _ _ _ hget]
      have hih := ih fuel d1' d1 h
      rw [hfl, horder] at hih
      exact hih
    · rename_i d1' heq
      split at h
      · exact Option.noConfusion h
      · rename_i d2 heq2
        obtain ⟨hget, _, horder, hflip⟩ := sawTrue_some heq
        have hv : (truesF d1'.flip).val = k ::ₘ (truesF d.flip).val := by
          rw [hflip, (truesF_set_true hget).2,
            Finset.insert_val_of_not_mem (truesF_set_true hget).1]
        have hih1 := dfs1go_count fuel k d1' _ d2 heq2
        rw [hv, horder] at hih1
        have hih2 := ih fuel d2 d1 h
        have e1 : (d2.order : Multiset Nat) + (truesF d.flip).val =
            (d.order : Multiset Nat) + (truesF d2.flip).val := by
          have h1' : ((d2.order : Multiset Nat) + (truesF d.flip).val) +
              {k} = ((d.order : Multiset Nat) + (truesF d2.flip).val) +
              {k} := by
            calc ((d2.order : Multiset Nat) + (truesF d.flip).val) + {k}
                = (d2.order : Multiset Nat) +
                  (k ::ₘ (truesF d.flip).val) := by
                  rw [← Multiset.singleton_add]; abel
              _ = (d.order : Multiset Nat) + (truesF d2.flip).val +
                  {k} := hih1
          exact add_right_cancel h1'
        have h3 : ((d1.order : Multiset Nat) + (truesF d.flip).val) +
            (truesF d2.flip).val =
            ((d.order : Multiset Nat) + (truesF d1.flip).val) +
            (truesF d2.flip).val := by
          calc ((d1.order : Multiset Nat) + (truesF d.flip).val) +
              (truesF d2.flip).val
              = ((d1.order : Multiset Nat) + (truesF d2.flip).val) +
                (truesF d.flip).val := by abel
            _ = ((d2.order : Multiset Nat) + (truesF d1.flip).val) +
                (truesF d.flip).val := by rw [hih2]
            _ = ((d2.order : Multiset Nat) + (truesF d.flip).val) +
                (truesF d1.flip).val := by abel
            _ = ((d.order : Multiset Nat) + (truesF d2.flip).val) +
                (truesF d1.flip).val := by rw [e1]
            _ = ((d.order : Multiset Nat) + (truesF d1.flip).val) +
                (truesF d2.flip).val := by abel
        exact add_right_cancel h3

/-- After the pass-1 root loop succeeds, every root key has its marker on. -/
theorem pass1_mem : ∀ (ks : List Nat) (fuel : Nat) (d d1 : dfser),
    pass1 fuel d ks = some d1 → ∀ k ∈ ks, k ∈ truesF d1.flip := by
  intro ks
  induction ks with
  | nil =>
    intro fuel d d1 _ k hk
    exact absurd hk (List.not_mem_nil _)
  | cons k t ih =>
    intro fuel d d1 h k' hk'
    simp only [pass1] at h
    split at h
    · exact Option.noConfusion h
    · rename_i d1' heq
      obtain ⟨hget, _, _, hflip⟩ := sawTrue_some heq
      rcases List.mem_cons.mp hk' with rfl | hk't
      · refine pass1_mono t fuel d1' d1 h ?_
        rw [hflip]
        rw [mem_truesF, List.length_set]
        exact ⟨lt_length_of_get?_some hget,
          List.get?_set_eq_of_lt _ (lt_length_of_get?_some hget)⟩
      · exact ih fuel d1' d1 h k' hk't
    · rename_i d1' heq
      split at h
      · exact Option.noConfusion h
      · rename_i d2 heq2
        obtain ⟨hget, _, _, hflip⟩ := sawTrue_some heq
        rcases List.mem_cons.mp hk' with rfl | hk't
        · refine pass1_mono t fuel d2 d1 h
            (dfs1go_mono fuel k' d1' _ d2 heq2 ?_)
          rw [hflip]
          rw [mem_truesF, List.length_set]
          exact ⟨lt_length_of_get?_some hget,
            List.get?_set_eq_of_lt _ (lt_length_of_get?_some hget)⟩
        · exact ih fuel d2 d1 h k' hk't

/-- Full accounting for the pass-2 loop: given it starts with an empty
`order`, the returned components jointly hold exactly the markers turned off
during the loop, every processed root ends with its marker off, and markers
only turn off. -/
theorem pass2_spec : ∀ (ks : List Nat) (fuel : Nat) (d : dfser)
    (acc comps : List (List Nat)), pass2 fuel d ks acc = some comps →
    d.order = [] →
    ∃ ffinal : List Bool, ffinal.length = d.flip.length ∧
      (comps.flatten : Multiset Nat) + (falsesF d.flip).val =
        (acc.flatten : Multiset Nat) + (falsesF ffinal).val ∧
      (∀ k ∈ ks, k ∈ falsesF ffinal) ∧
      falsesF d.flip ⊆ falsesF ffinal := by
  intro ks
  induction ks with
  | nil =>
    intro fuel d acc comps h _
    simp only [pass2, Option.some.injEq] at h
    rw [← h]
    exact ⟨d.flip, rfl, by abel, fun k hk => absurd hk (List.not_mem_nil _),
      Finset.Subset.refl _⟩
  | cons k t ih =>
    intro fuel d acc comps h hord
    simp only [pass2] at h
    split at h
    · exact Option.noConfusion h
    · rename_i d1 heq
      obtain ⟨hget, _, horder, hflip⟩ := sawFalse_some heq
      have hget' : d.flip.get? k = some false := by simpa using hget
      have hfl : d1.flip = d.flip := by
        rw [hflip, set_get?_self _ _ _ hget']
      obtain ⟨ffinal, hlen, heqn, hmem, hsub⟩ :=
        ih fuel d1 acc comps h (by rw [horder, hord])
      rw [hfl] at hlen heqn hsub
      refine ⟨ffinal, hlen, heqn, ?_, hsub⟩
      intro k' hk'
      rcases List.mem_cons.mp hk' with rfl | hk't
      · refine hsub ?_
        rw [mem_falsesF]
        exact ⟨lt_length_of_get?_some hget', hget'⟩
      · exact hmem k' hk't
    · rename_i d1 heq
      split at h
      · exact Option.noConfusion h
      · rename_i d2 heq2
        obtain ⟨hget, _, horder, hflip⟩ := sawFalse_some heq
        have hget' : d.flip.get? k = some true := by simpa using hget
        have hv : (falsesF d1.flip).val = k ::ₘ (falsesF d.flip).val := by
          rw [hflip, (falsesF_set_false hget').2,
            Finset.insert_val_of_not_mem (falsesF_set_false hget').1]
        have hcnt := dfs2go_count fuel k d1 _ d2 heq2
        rw [hv, horder, hord] at hcnt
        have e1 : (d2.order : Multiset Nat) + (falsesF d.flip).val =
            (falsesF d2.flip).val := by
          have h1' : ((d2.order : Multiset Nat) + (falsesF d.flip).val) +
              {k} = (falsesF d2.flip).val + {k} := by
            calc ((d2.order : Multiset Nat) + (falsesF d.flip).val) + {k}
                = (d2.order : Multiset Nat) +
                  (k ::ₘ (falsesF d.flip).val) := by
                  rw [← Multiset.singleton_add]; abel
              _ = (([] : List Nat) : Multiset Nat) +
                  (falsesF d2.flip).val + {k} := hcnt
              _ = (falsesF d2.flip).val + {k} := by
                  rw [Multiset.coe_nil]; abel
          exact add_right_cancel h1'
        obtain ⟨ffinal, hlen, heqn, hmem, hsub⟩ :=
          ih fuel { d2 with order := [] } (acc ++ [d2.order]) comps h rfl
        have hsub2 : falsesF d1.flip ⊆ falsesF d2.flip :=
          dfs2go_mono fuel k d1 _ d2 heq2
        refine ⟨ffinal, ?_, ?_, ?_, ?_⟩
        · rw [hlen]
          show d2.flip.length = d.flip.length
          rw [(dfs2go_frame fuel k d1 _ d2 heq2).2, hflip, List.length_set]
        · have hflat : ((acc ++ [d2.order]).flatten : Multiset Nat) =
              (acc.flatten : Multiset Nat) + (d2.order : Multiset Nat) := by
            rw [List.flatten_append]
            rw [← Multiset.coe_add]
            simp [List.flatten]
          rw [hflat] at heqn
          have h3 : ((comps.flatten : Multiset Nat) + (falsesF d.flip).val) +
              ((d2.order : Multiset Nat) + (falsesF d.flip).val) =
              ((acc.flatten : Multiset Nat) + (falsesF ffinal).val) +
              ((d2.order : Multiset Nat) + (falsesF d.flip).val) := by
            calc ((comps.flatten : Multiset Nat) + (falsesF d.flip).val) +
                ((d2.order : Multiset Nat) + (falsesF d.flip).val)
                = ((comps.flatten : Multiset Nat) +
                   ((d2.order : Multiset Nat) + (falsesF d.flip).val)) +
                  (falsesF d.flip).val := by abel
              _ = ((comps.flatten : Multiset Nat) + (falsesF d2.flip).val) +
                  (falsesF d.flip).val := by rw [e1]
              _ = ((acc.flatten : Multiset Nat) + (d2.order : Multiset Nat) +
                  (falsesF ffinal).val) + (falsesF d.flip).val := by
                  rw [heqn]
              _ = ((acc.flatten : Multiset Nat) + (falsesF ffinal).val) +
                  ((d2.order : Multiset Nat) + (falsesF d.flip).val) := by
                  abel
          exact add_right_cancel h3
        · intro k' hk'
          rcases List.mem_cons.mp hk' with rfl | hk't
          · refine hsub (hsub2 ?_)
            rw [hflip]
            rw [mem_falsesF, List.length_set]
            exact ⟨lt_length_of_get?_some hget',
              List.get?_set_eq_of_lt _ (lt_length_of_get?_some hget')⟩
          · exact hmem k' hk't
        · refine Finset.Subset.trans ?_ (Finset.Subset.trans hsub2 hsub)
          rw [hflip]
          exact falsesF_subset_set_false _ _

/-- C3 (amended): whenever `StrongComponents` returns a result (it panics —
`none` — when some node identity is at least the node count), the returned
components are a partition of the graph's node set: the multiset union of
all components equals the key set of `out`, with no duplicates and no
extras.  The nodup hypothesis is the Go map invariant that keys are
distinct. -/
theorem C3_strongComponents_partition (g : Graph)
    (hnd : (g.out.map Prod.fst).Nodup) (comps : List (List Nat))
    (h : g.strongComponents = some comps) :
    comps.flatten.Perm (g.out.map Prod.fst) := by
  simp only [Graph.strongComponents] at h
  split at h
  · exact Option.noConfusion h
  · rename_i d1 hp1
    have hfr := pass1_frame _ _ _ _ hp1
    have hlen1 : d1.flip.length = g.out.length := by
      rw [hfr.2]
      exact List.length_replicate _ _
    have hcnt := pass1_count _ _ _ _ hp1
    have hord : (d1.order : Multiset Nat) = (truesF d1.flip).val := by
      simpa [truesF_replicate_false] using hcnt
    have hmem := pass1_mem _ _ _ _ hp1
    have htr : truesF d1.flip ⊆ Finset.range g.out.length := by
      intro x hx
      rw [mem_truesF] at hx
      rw [Finset.mem_range, ← hlen1]
      exact hx.1
    have hkf : (g.out.map Prod.fst).toFinset ⊆ truesF d1.flip := by
      intro x hx
      exact hmem x (List.mem_toFinset.mp hx)
    have hcard : (g.out.map Prod.fst).toFinset.card = g.out.length := by
      rw [List.toFinset_card_of_nodup hnd, List.length_map]
    have hkeq : (g.out.map Prod.fst).toFinset = Finset.range g.out.length := by
      refine Finset.eq_of_subset_of_card_le (Finset.Subset.trans hkf htr) ?_
      rw [hcard, Finset.card_range]
    have htreq : truesF d1.flip = Finset.range g.out.length := by
      refine Finset.Subset.antisymm htr ?_
      rw [← hkeq]
      exact hkf
    have hfe : falsesF d1.flip = ∅ := by
      ext x
      simp only [Finset.not_mem_empty, iff_false]
      intro hx
      rw [mem_falsesF] at hx
      have hxr : x ∈ Finset.range g.out.length := by
        rw [Finset.mem_range, ← hlen1]
        exact hx.1
      rw [← htreq, mem_truesF] at hxr
      have hcontra : some false = some true := hx.2.symm.trans hxr.2
      exact Option.noConfusion hcontra (fun hh => Bool.noConfusion hh)
    obtain ⟨ffinal, hflen, heqn, hmem2, _⟩ := pass2_spec _ _ _ _ _ h rfl
    have hflen' : ffinal.length = d1.flip.length := hflen
    have hflat : (comps.flatten : Multiset Nat) = (falsesF ffinal).val := by
      have heqn' : (comps.flatten : Multiset Nat) + (falsesF d1.flip).val =
          (([] : List (List Nat)).flatten : Multiset Nat) +
            (falsesF ffinal).val := heqn
      simpa [hfe] using heqn'
    have hrange : Finset.range g.out.length ⊆ falsesF ffinal := by
      intro x hx
      have hxo : x ∈ d1.order := by
        rw [← Multiset.mem_coe, hord, htreq, Finset.mem_val]
        rw [Finset.mem_range] at hx ⊢
        exact hx
      exact hmem2 x (List.mem_reverse.mpr hxo)
    have hffr : falsesF ffinal ⊆ Finset.range g.out.length := by
      intro x hx
      rw [mem_falsesF] at hx
      rw [Finset.mem_range]
      have hx1 := hx.1
      rw [hflen', hlen1] at hx1
      exact hx1
    have hfeq : falsesF ffinal = Finset.range g.out.length :=
      Finset.Subset.antisymm hffr hrange
    have hkv : ((g.out.map Prod.fst : List Nat) : Multiset Nat) =
        (Finset.range g.out.length).val := by
      rw [← hkeq, List.toFinset_val, List.dedup_eq_self.mpr hnd]
    have hfin : (comps.flatten : Multiset Nat) =
        ((g.out.map Prod.fst : List Nat) : Multiset Nat) := by
      rw [hflat, hfeq, hkv]
    exact Multiset.coe_eq_coe.mp hfin

/-- Witness for the amended C3 theorem at the graph `Link(0,1)`, where
`StrongComponents` returns `[[0],[1]]`. -/
theorem C3_strongComponents_partition_witness :
    ([[0], [1]] : List (List Nat)).flatten.Perm
      ((Graph.new.link 0 1).out.map Prod.fst) :=
  C3_strongComponents_partition (Graph.new.link 0 1) (by decide) [[0], [1]]
    (by decide)

/-- C10: `StrongComponents` never modifies the graph.  In this embedding the
adjacency maps are threaded through the traversal inside the `dfser` value;
the traversal functions write only the `order` and `flip` fields and return
the `graph` field unchanged, so the `out`/`in` mappings read by
`strongComponents` are identical before and after the call. -/
theorem C10_traversal_preserves_graph :
    (∀ (fuel node : Nat) (d : dfser) (nbs : List Nat) (d' : dfser),
      dfs1go fuel node d nbs = some d' → d'.graph = d.graph) ∧
    (∀ (fuel node : Nat) (d : dfser) (nbs : List Nat) (d' : dfser),
      dfs2go fuel node d nbs = some d' → d'.graph = d.graph) ∧
    (∀ (ks : List Nat) (fuel : Nat) (d d1 : dfser),
      pass1 fuel d ks = some d1 → d1.graph = d.graph) :=
  ⟨fun fuel node d nbs d' h => (dfs1go_frame fuel node d nbs d' h).1,
   fun fuel node d nbs d' h => (dfs2go_frame fuel node d nbs d' h).1,
   fun ks fuel d d1 h => (pass1_frame ks fuel d d1 h).1⟩

/-- Witness for the C10 theorem on small concrete traversal states. -/
theorem C10_traversal_preserves_graph_witness :
    ((⟨[(0, [])], [0], [true]⟩ : dfser).graph =
      (⟨[(0, [])], [], [true]⟩ : dfser).graph) ∧
    ((⟨[(0, [])], [0], [false]⟩ : dfser).graph =
      (⟨[(0, [])], [], [false]⟩ : dfser).graph) ∧
    ((⟨[(0, [])], [], [true]⟩ : dfser).graph =
      (⟨[(0, [])], [], [true]⟩ : dfser).graph) :=
  ⟨C10_traversal_preserves_graph.1 1 0 ⟨[(0, [])], [], [true]⟩ []
      ⟨[(0, [])], [0], [true]⟩ (by decide),
   C10_traversal_preserves_graph.2.1 1 0 ⟨[(0, [])], [], [false]⟩ []
      ⟨[(0, [])], [0], [false]⟩ (by decide),
   C10_traversal_preserves_graph.2.2 [] 1 ⟨[(0, [])], [], [true]⟩
      ⟨[(0, [])], [], [true]⟩ (by decide)⟩

/-- C1: the claim fails on the code.  In `gBug` (a state reached purely
through the public API) the `out` map contains the directed cycle
`0 → 1 → 2 → 0`, so `0` and `1` are mutually reachable, yet
`StrongComponents` returns `[[2,0],[1]]`, separating `1` from `0`: pass 2
runs on the `in` map, which lost the mirror entries of `0 → 1` and `1 → 2`
when `Remove`/`Add` were interleaved. -/
theorem C1_mutually_reachable_nodes_split : gBug.strongComponents = some [[2, 0], [1]] ∧
    Reaches gBug 0 1 ∧ Reaches gBug 1 0 ∧ ¬ SameComponent [[2, 0], [1]] 0 1 :=
  ⟨by decide,
   Relation.ReflTransGen.single (by decide),
   Relation.ReflTransGen.head (show EdgeOut gBug 1 2 by decide)
     (Relation.ReflTransGen.single (show EdgeOut gBug 2 0 by decide)),
   by decide⟩

/-- C2: the claim fails on the code.  In the output `[[2,0],[1]]` for `gBug`
the edge `0 → 1` runs from the first component into the second, so the
depended-upon component `[1]` appears after its dependent — the returned
sequence is not in dependency order (the two components even depend on each
other, since `1 → 2` runs the other way: the output is not a partition into
SCCs in the first place). -/
theorem C2_not_dependency_ordered : gBug.strongComponents = some [[2, 0], [1]] ∧
    ¬ DepOrdered gBug [[2, 0], [1]] :=
  ⟨by decide, by decide⟩

/-- C4: the claim fails on the code.  `StrongComponents` sizes `flip` by the
node count but indexes it by node identity: after `Add(1)` on the empty
graph, `flip` has length 1 and the root loop evaluates `d.flip[1]`, which
panics (modelled as `none`). -/
theorem C4_flip_index_panic : (Graph.new.add 1).strongComponents = none := by decide

/-- C7: the claim fails on the code.  After
`Link(1,2); Link(2,1); Link(2,3); Remove(2)` two nodes remain, so `flip` has
length 2, and the traversal evaluates `d.flip[3]` (root 3) or `d.flip[2]`
(stale neighbour 2 of node 1) — a panic, not the claimed two singleton
components. -/
theorem C7_removal_scenario_panics : gRemoveScenario.strongComponents = none := by decide

/-- C8: the claim fails on the code.  After `Link(1,2); Link(2,3)` the graph
has three nodes `1,2,3`, so `flip` has length 3 and the traversal evaluates
`d.flip[3]` — a panic, not the claimed `[[3],[2],[1]]`. -/
theorem C8_chain_scenario_panics : gChainScenario.strongComponents = none := by decide

/-- C9: the claim fails on the code.  After
`Link(1,2); Link(2,1); Unlink(2,1)` the graph has nodes `1,2`, so `flip` has
length 2 and the root loop evaluates `d.flip[2]` — a panic, not the claimed
`[[1],[2]]`. -/
theorem C9_unlink_scenario_panics : gUnlinkScenario.strongComponents = none := by decide

/-- C3, counterexample: as stated over every graph the claim fails, because
`StrongComponents` can panic before producing any output.  After `Add(2)` on
the empty graph there is no returned component list at all (the root loop
evaluates `d.flip[2]` with `len(flip) = 1`), so node 2 — present in the
graph — does not appear in exactly one component of the output. -/
theorem C3_cex_no_output_for_node_two :
    (Graph.new.add 2).strongComponents = none ∧
    hasKey (Graph.new.add 2).out 2 = true := by decide

/-- C5, counterexample: after `Add(0); Remove(0)` the claim "`0` has an entry
in neither mapping" fails — `Remove` deletes the node's `out` entry but
never deletes its `in` entry, so `in` still has an entry for `0`. -/
theorem C5_cex_inn_entry_survives_remove :
    hasKey ((Graph.new.add 0).remove 0).out 0 = false ∧
    hasKey ((Graph.new.add 0).remove 0).inn 0 = true := by decide

/-- C6, counterexample: the mirror invariant is not preserved by every API
sequence.  After `Link(0,1); Remove(1); Add(1)`, `Remove` leaves the stale
edge `1 ∈ out[0]` and `Add` resets `in[1]` to the empty set, so
`1 ∈ out[0]` while `0 ∉ in[1]` — `Mirror` fails at the pair `(0, 1)`. -/
theorem C6_cex_mirror_broken :
    hasKey (runOps [Op.link 0 1, Op.remove 1, Op.add 1]).out 0 = true ∧
    1 ∈ lookupAdj (runOps [Op.link 0 1, Op.remove 1, Op.add 1]).out 0 ∧
    lookupAdj (runOps [Op.link 0 1, Op.remove 1, Op.add 1]).inn 1 = [] := by
  decide

end HdGraph
